import Mathlib

/-!
Verification of the Hacker News newest-articles sorting validator
(`src/index.js`) against its natural-language specification.

The JavaScript program is embedded shallowly:

* JavaScript numbers that can be `NaN` are modelled by `JsNum`
  (`timestamp = parseInt(...) * 1000` can be `NaN` when the regex match
  fails, and `isNaN` guards admission).
* The DOM of the page is modelled by `HNDoc`: a list of `tr.athing` rows
  plus an id-indexed lookup for the `#score_<id>` elements with their
  optional `parentElement` and `.age > a` link.
* `Array.prototype.sort` with the comparator
  `(a, b) => b.timestamp - a.timestamp` is modelled as a stable merge
  sort whose take-left test is `comparator(a,b) <= 0`, with a `NaN`
  comparator result coerced to `+0` exactly as the ECMAScript
  `SortCompare` operation prescribes.  The fuel-indexed definitions are
  structurally recursive so that every function evaluates by `rfl`.
* The `for` loop at lines 97-104 that throws `Error` on the first
  adjacent inversion is modelled by `verifyScan`, returning
  `Except String Unit` (`Except.error` = thrown exception).
* The console output of lines 82-111 (listing, success marker, catch
  logging, finally block) is modelled by `phaseOutput`, a list of
  `OutLine`s.
-/

/-- A JavaScript number as used for timestamps: either `NaN` or an
integer value (all timestamps in the program are integers). -/
inductive JsNum : Type
  | nan : JsNum
  | num : Int → JsNum
deriving DecidableEq, Repr

/-- JavaScript subtraction on timestamps: `NaN` is absorbing. -/
def jsSub : JsNum → JsNum → JsNum
  | JsNum.num a, JsNum.num b => JsNum.num (a - b)
  | _, _ => JsNum.nan

/-- JavaScript `isNaN` on a timestamp value. -/
def jsIsNaN : JsNum → Bool
  | JsNum.nan => true
  | JsNum.num _ => false

/-- JavaScript `x * 1000` on a timestamp value (`NaN` propagates). -/
def jsMul1000 : JsNum → JsNum
  | JsNum.nan => JsNum.nan
  | JsNum.num v => JsNum.num (v * 1000)

/-- JavaScript strict `>` on timestamps: any comparison involving `NaN`
is `false` (line 98: `top100[i].timestamp > top100[i - 1].timestamp`). -/
def jsGtB : JsNum → JsNum → Bool
  | JsNum.num a, JsNum.num b => decide (b < a)
  | _, _ => false

/-- One article record as pushed at lines 55-58 of `src/index.js`:
exactly the two fields `title` and `timestamp`. -/
structure Article : Type where
  title : String
  timestamp : JsNum
deriving DecidableEq, Repr

/-- The numeric value the ECMAScript `SortCompare` operation derives
from the comparator `(a, b) => b.timestamp - a.timestamp`: a `NaN`
comparator result is coerced to `+0`. -/
def sortCompareVal (a b : Article) : Int :=
  match jsSub b.timestamp a.timestamp with
  | JsNum.nan => 0
  | JsNum.num v => v

/-- The take-left test of the stable sort: element `a` may stay before
element `b` exactly when the comparator does not order `b` strictly
before `a`. -/
def sortLe (a b : Article) : Bool :=
  decide (sortCompareVal a b ≤ 0)

/-- Fuel-indexed stable merge of two lists using `sortLe`; with fuel at
least the sum of the lengths the fuel never runs out. -/
def jsMergeF : Nat → List Article → List Article → List Article
  | 0, l, r => l ++ r
  | _ + 1, [], r => r
  | _ + 1, a :: l, [] => a :: l
  | f + 1, a :: l, b :: r =>
    if sortLe a b then a :: jsMergeF f l (b :: r)
    else b :: jsMergeF f (a :: l) r

/-- Stable merge with exactly enough fuel. -/
def jsMerge (l r : List Article) : List Article :=
  jsMergeF (l.length + r.length) l r

/-- Fuel-indexed stable merge sort (model of `Array.prototype.sort`
with the descending-timestamp comparator of line 80). -/
def jsSortF : Nat → List Article → List Article
  | 0, l => l
  | _ + 1, [] => []
  | _ + 1, [a] => [a]
  | f + 1, a :: b :: rest =>
    jsMerge (jsSortF f ((a :: b :: rest).take ((rest.length + 2) / 2)))
            (jsSortF f ((a :: b :: rest).drop ((rest.length + 2) / 2)))

/-- `articles.sort((a, b) => b.timestamp - a.timestamp)` of line 80. -/
def jsSort (l : List Article) : List Article :=
  jsSortF l.length l

/-- The `top100` value of line 80:
`articles.slice(0, 100).sort((a, b) => b.timestamp - a.timestamp)`.
`slice` copies, so the sort operates on the copy of the first 100
items. -/
def top100Of (articles : List Article) : List Article :=
  jsSort (articles.take 100)

/-- The error message built at lines 99-102. -/
def violationMsg (i : Nat) (cur prev : Article) : String :=
  "Sorting error at position " ++ Nat.repr i ++ ": Article \x27" ++
    cur.title ++ "\x27 is newer than \x27" ++ prev.title ++ "\x27"

/-- The verification loop of lines 97-104, scanning adjacent pairs from
index `i`; the first pair with `cur.timestamp > prev.timestamp` throws
(`Except.error`). -/
def scanExc : Nat → List Article → Except String Unit
  | _, [] => Except.ok ()
  | _, [_] => Except.ok ()
  | i, prev :: cur :: rest =>
    if jsGtB cur.timestamp prev.timestamp then
      Except.error (violationMsg i cur prev)
    else scanExc (i + 1) (cur :: rest)

/-- The whole verification scan applied to `top100` (loop counter
starts at `i = 1`). -/
def verifyScan (top100 : List Article) : Except String Unit :=
  scanExc 1 top100

/-- The first adjacent inversion, as data: position, current item,
previous item (the pure content of the scan of lines 97-104). -/
def firstViolation : Nat → List Article → Option (Nat × Article × Article)
  | _, [] => none
  | _, [_] => none
  | i, prev :: cur :: rest =>
    if jsGtB cur.timestamp prev.timestamp then some (i, cur, prev)
    else firstViolation (i + 1) (cur :: rest)

/-! ## Extraction (the `page.evaluate` callback, lines 42-63) -/

/-- A `.titleline > a` element: only its `textContent` is read. -/
structure TitleEl : Type where
  textContent : String
deriving DecidableEq, Repr

/-- An `.age > a` element: only its `href` is read. -/
structure AgeEl : Type where
  href : String
deriving DecidableEq, Repr

/-- The `parentElement` of a `#score_<id>` element, with its optional
`.age > a` child. -/
structure ParentEl : Type where
  ageLink : Option AgeEl
deriving DecidableEq, Repr

/-- A `#score_<id>` element, with its optional `parentElement`. -/
structure ScoreEl : Type where
  parent : Option ParentEl
deriving DecidableEq, Repr

/-- One `tr.athing` row: its `id` attribute (possibly absent) and its
optional `.titleline > a` child. -/
structure HNRow : Type where
  id : Option String
  titleEl : Option TitleEl
deriving Repr

/-- The page document: the `tr.athing` rows in order, and the
id-indexed element lookup backing `document.querySelector("#...")`. -/
structure HNDoc : Type where
  rows : List HNRow
  byId : String → Option ScoreEl

/-- JavaScript string interpolation of `row.getAttribute("id")`
(`null` interpolates as `"null"`). -/
def rowIdString (r : HNRow) : String :=
  match r.id with
  | none => "null"
  | some s => s

/-- The lookup
`document.querySelector("#score_" + id)?.parentElement?.querySelector(".age > a")`
of lines 49-50. -/
def ageLinkFor (doc : HNDoc) (r : HNRow) : Option AgeEl :=
  ((doc.byId ("score_" ++ rowIdString r)).bind ScoreEl.parent).bind ParentEl.ageLink

/-- An executable model of `String.prototype.trim` (line 56:
`titleEl.textContent.trim()`): strip leading and trailing
whitespace. -/
def jsTrim (s : String) : String :=
  ⟨((s.toList.dropWhile Char.isWhitespace).reverse.dropWhile Char.isWhitespace).reverse⟩

/-- The numeric value of a list of decimal digit characters. -/
def natOfDigits (ds : List Char) : Nat :=
  ds.foldl (fun n c => n * 10 + (c.toNat - 48)) 0

/-- The first maximal run of decimal digits of a string, as matched by
the regex `/\d+/` at line 53; `none` when the string has no digit. -/
def firstDigitRun (s : String) : Option (List Char) :=
  match s.toList.dropWhile (fun c => !c.isDigit) with
  | [] => none
  | c :: cs => some (c :: cs.takeWhile Char.isDigit)

/-- `parseInt(ageEl.href.match(/\d+/)?.[0])` of line 53: `NaN` when the
match fails, otherwise the value of the first digit run. -/
def parseIntFirst (s : String) : JsNum :=
  match firstDigitRun s with
  | none => JsNum.nan
  | some ds => JsNum.num (natOfDigits ds)

/-- Extraction of a single `tr.athing` row (lines 47-60): requires the
title element and the located age link, converts the UNIX timestamp to
milliseconds, and admits the record only when the result is not
`NaN`. -/
def extractRow (doc : HNDoc) (r : HNRow) : Option Article :=
  match r.titleEl, ageLinkFor doc r with
  | some t, some a =>
    let timestamp := jsMul1000 (parseIntFirst a.href)
    if jsIsNaN timestamp then none
    else some { title := jsTrim t.textContent, timestamp := timestamp }
  | _, _ => none

/-- The whole `page.evaluate` callback (lines 42-63): the admitted
records of all rows, in row order. -/
def extractVisibleItems (doc : HNDoc) : List Article :=
  doc.rows.filterMap (extractRow doc)

/-- Extraction as a function of the pair (title element, located age
link) only: used to state that the row `id` is never stored. -/
def extractPair : Option TitleEl × Option AgeEl → Option Article
  | (some t, some a) =>
    let timestamp := jsMul1000 (parseIntFirst a.href)
    if jsIsNaN timestamp then none
    else some { title := jsTrim t.textContent, timestamp := timestamp }
  | _ => none

/-! ## Accumulation (the `while` loop, lines 38-77) -/

/-- The accumulation loop of lines 38-77, driven by the successive
results of `extractVisibleItems` (`batches`).  Returns the final
`articles` value (`none` models the run failing because no further
extraction result is available before `target` is reached) and the list
of `articles.length` values observed at each `page.click(".morelink")`
invocation, in order. -/
def accumulateArticles (target : Nat) : List (List Article) → List Article →
    Option (List Article) × List Nat
  | batches, acc =>
    if acc.length < target then
      match batches with
      | [] => (none, [])
      | b :: rest =>
        let acc2 := acc ++ b
        if acc2.length < target then
          let res := accumulateArticles target rest acc2
          (res.1, acc2.length :: res.2)
        else (some acc2, [])
    else (some acc, [])

/-! ## Console output (lines 82-111) -/

/-- One emitted console line: `logger.info`, `logger.success`,
`logger.error`, or a plain `console.log`. -/
inductive OutLine : Type
  | info : String → OutLine
  | success : String → OutLine
  | error : String → OutLine
  | plain : String → OutLine
deriving DecidableEq, Repr

/-- `new Date(article.timestamp).toLocaleString()` of lines 89-90.  The
real rendering is locale- and environment-dependent; it is modelled by
a fixed injective-enough rendering (`"Invalid Date"` for `NaN`, the
integer value otherwise).  No claim depends on the rendered text. -/
def dateToLocaleString : JsNum → String
  | JsNum.nan => "Invalid Date"
  | JsNum.num v => Int.repr v

/-- The `forEach` listing of lines 88-91: 1-indexed enumeration, where
`i` is the current 0-based index. -/
def listingLines : Nat → List Article → List OutLine
  | _, [] => []
  | i, a :: rest =>
    OutLine.plain (Nat.repr (i + 1) ++ ". [" ++ dateToLocaleString a.timestamp
        ++ "] " ++ a.title) :: listingLines (i + 1) rest

/-- The report of lines 82-94, printed unconditionally before the
verification scan: headers, the 1-indexed listing of `top100`, and the
success marker. -/
def reportLines (top100 : List Article) : List OutLine :=
  [OutLine.info "Sorting articles from newest to oldest...",
   OutLine.info "\nFinal sorted list of 100 articles (newest to oldest):",
   OutLine.info "----------------------------------------"] ++
  listingLines 0 top100 ++
  [OutLine.info "----------------------------------------",
   OutLine.success "Successfully validated and sorted 100 articles."]

/-- The `finally` block of lines 108-112. -/
def finallyLines : List OutLine :=
  [OutLine.info "Closing browser...",
   OutLine.success "Bot execution completed."]

/-- The console output of lines 82-112, as a function of the `top100`
variable of line 80: the report, then — only when the verification scan
throws — the catch block's failure line, then the `finally` block. -/
def phaseOutput (top100 : List Article) : List OutLine :=
  reportLines top100 ++
  (match verifyScan top100 with
   | Except.ok _ => []
   | Except.error e => [OutLine.error ("Validation failed: " ++ e)]) ++
  finallyLines

/-- Whether a console line is a `logger.error` failure line. -/
def isErrorLine : OutLine → Bool
  | OutLine.error _ => true
  | _ => false

/-! ## Relations used to state the claims -/

/-- The propositional form of the stable sort's take-left test. -/
def SortLeRel (a b : Article) : Prop := sortLe a b = true

instance : DecidableRel SortLeRel :=
  fun a b => inferInstanceAs (Decidable (sortLe a b = true))

/-- `c` has a finite timestamp not above the finite timestamp of `p`
(the adjacent-pair condition `ordered[i].timestampMs <=
ordered[i-1].timestampMs` of the specification). -/
def tsLeNum (c p : Article) : Prop :=
  ∃ x y : Int, c.timestamp = JsNum.num x ∧ p.timestamp = JsNum.num y ∧ x ≤ y

/-- `a` has a strictly larger finite timestamp than `b`. -/
def tsGt (a b : Article) : Prop :=
  ∃ x y : Int, a.timestamp = JsNum.num x ∧ b.timestamp = JsNum.num y ∧ y < x

instance : IsTrans Article tsGt :=
  ⟨by
    rintro a b c ⟨x, y, hax, hby, hyx⟩ ⟨y2, z, hby2, hcz, hzy⟩
    rw [hby2] at hby
    exact ⟨x, z, hax, hcz, by cases hby; omega⟩⟩

instance : IsAntisymm Article tsGt :=
  ⟨by
    rintro a b ⟨x, y, hax, hby, hyx⟩ ⟨y2, x2, hby2, hax2, hxy⟩
    rw [hax2] at hax
    rw [hby2] at hby
    cases hax
    cases hby
    omega⟩

/-! ## Concrete inputs for witnesses and counterexamples -/

/-- A 100-item sample with distinct finite timestamps. -/
def c1Sample : List Article :=
  (List.range 100).map fun n => { title := "w", timestamp := JsNum.num n }

/-- A 100-item sample whose first item has a `NaN` timestamp. -/
def c2Sample : List Article :=
  { title := "broken", timestamp := JsNum.nan } ::
    ((List.range 99).map fun n => { title := "a", timestamp := JsNum.num n })

/-- A one-row document whose title element has empty text and whose age
link carries the UNIX timestamp 500. -/
def c3Doc : HNDoc where
  rows := [{ id := some "1", titleEl := some { textContent := "" } }]
  byId := fun s =>
    if s = "score_1" then
      some { parent := some { ageLink := some { href := "item?id=500" } } }
    else none

/-- A two-element `top100` with an adjacent inversion (the second item
is newer than the first). -/
def c5Older : Article := { title := "Older", timestamp := JsNum.num 10 }

/-- The newer of the two items of the inverted pair. -/
def c5Newer : Article := { title := "Newer", timestamp := JsNum.num 20 }

/-- The inverted pair itself. -/
def c5Pair : List Article := [c5Older, c5Newer]

/-- Scenario C batches: three successive extraction results of two
valid items each. -/
def c7Batches : List (List Article) :=
  [[{ title := "b1a", timestamp := JsNum.num 6 },
    { title := "b1b", timestamp := JsNum.num 5 }],
   [{ title := "b2a", timestamp := JsNum.num 4 },
    { title := "b2b", timestamp := JsNum.num 3 }],
   [{ title := "b3a", timestamp := JsNum.num 2 },
    { title := "b3b", timestamp := JsNum.num 1 }]]

/-- A 100-item prefix shared by the two collections of the frame
witness. -/
def c8Base : List Article :=
  (List.range 100).map fun n => { title := "p", timestamp := JsNum.num n }

/-- A collection extending the shared prefix one way beyond index 99. -/
def c8Coll1 : List Article :=
  c8Base ++ [{ title := "extra-one", timestamp := JsNum.num 7777 }]

/-- A collection extending the shared prefix another way beyond index
99. -/
def c8Coll2 : List Article :=
  c8Base ++ [{ title := "extra-two", timestamp := JsNum.num 8888 }]

/-- A three-item tie-free sample. -/
def c9Sample : List Article :=
  [{ title := "A", timestamp := JsNum.num 100 },
   { title := "B", timestamp := JsNum.num 300 },
   { title := "C", timestamp := JsNum.num 200 }]

/-- The strictly descending arrangement of `c9Sample`. -/
def c9Ordered : List Article :=
  [{ title := "B", timestamp := JsNum.num 300 },
   { title := "C", timestamp := JsNum.num 200 },
   { title := "A", timestamp := JsNum.num 100 }]

/-- The score element shared by the two documents of the id witness. -/
def c10Score : ScoreEl :=
  { parent := some { ageLink := some { href := "item?id=1700000000" } } }

/-- A document whose single row has id `"10"`. -/
def c10Doc1 : HNDoc where
  rows := [{ id := some "10", titleEl := some { textContent := "Same title" } }]
  byId := fun s => if s = "score_10" then some c10Score else none

/-- A document identical to `c10Doc1` except that the row id (and hence
the id under which the score element is registered) is `"20"`. -/
def c10Doc2 : HNDoc where
  rows := [{ id := some "20", titleEl := some { textContent := "Same title" } }]
  byId := fun s => if s = "score_20" then some c10Score else none

/-! ## Helper lemmas: the comparator -/

/-- The take-left test is total (for finite timestamps by linearity of
the integer order, and trivially when `NaN` is involved, because the
ECMAScript `SortCompare` operation coerces a `NaN` comparator result to
`+0`). -/
theorem sortLe_total (a b : Article) : sortLe a b = true ∨ sortLe b a = true := by
  unfold sortLe sortCompareVal jsSub
  cases a.timestamp <;> cases b.timestamp <;> simp <;> omega

/-- An adjacent pair accepted by the take-left test is never reported
by the strict `>` check of line 98. -/
theorem jsGtB_eq_false_of_sortLe (p c : Article) (h : SortLeRel p c) :
    jsGtB c.timestamp p.timestamp = false := by
  unfold SortLeRel sortLe sortCompareVal jsSub at h
  unfold jsGtB
  cases hc : c.timestamp <;> cases hp : p.timestamp <;>
    rw [hc, hp] at h <;> simp_all <;> omega

/-! ## Helper lemmas: the merge -/

/-- The head of a merge is the head of one of the two inputs. -/
theorem jsMergeF_head? (f : Nat) (l r : List Article) (x : Article)
    (h : (jsMergeF f l r).head? = some x) :
    l.head? = some x ∨ r.head? = some x := by
  match f, l, r with
  | 0, l, r =>
    unfold jsMergeF at h
    cases l with
    | nil => right; simpa using h
    | cons a l => left; simpa using h
  | f + 1, [], r => right; simpa [jsMergeF] using h
  | f + 1, a :: l, [] => left; simpa [jsMergeF] using h
  | f + 1, a :: l, b :: r =>
    by_cases hle : sortLe a b
    · left; simp [jsMergeF, hle] at h; simp [h]
    · right; simp [jsMergeF, hle] at h; simp [h]

/-- Merging two lists whose adjacent pairs all satisfy the take-left
test yields a list whose adjacent pairs all satisfy it, using only the
totality of the test (the test need not be transitive: this covers
samples containing `NaN` timestamps). -/
theorem jsMergeF_chain' (f : Nat) :
    ∀ l r : List Article, l.length + r.length ≤ f →
      List.Chain' SortLeRel l → List.Chain' SortLeRel r →
      List.Chain' SortLeRel (jsMergeF f l r) := by
  induction f with
  | zero =>
    intro l r hf h1 h2
    have hl : l = [] := by cases l <;> simp_all
    have hr : r = [] := by cases r <;> simp_all
    subst hl; subst hr
    simp [jsMergeF]
  | succ f ih =>
    intro l r hf h1 h2
    match l, r with
    | [], r => simpa [jsMergeF] using h2
    | a :: l, [] => simpa [jsMergeF] using h1
    | a :: l, b :: r =>
      have h1' := List.chain'_cons'.mp h1
      have h2' := List.chain'_cons'.mp h2
      by_cases hle : sortLe a b
      · have htail : List.Chain' SortLeRel (jsMergeF f l (b :: r)) := by
          apply ih l (b :: r) _ h1'.2 h2
          simp at hf ⊢
          omega
        rw [jsMergeF, if_pos hle]
        rw [List.chain'_cons']
        refine ⟨?_, htail⟩
        intro y hy
        rcases jsMergeF_head? f l (b :: r) y hy with hh | hh
        · exact h1'.1 y hh
        · simp at hh
          subst hh
          exact hle
      · have htail : List.Chain' SortLeRel (jsMergeF f (a :: l) r) := by
          apply ih (a :: l) r _ h1 h2'.2
          simp at hf ⊢
          omega
        rw [jsMergeF, if_neg hle]
        rw [List.chain'_cons']
        refine ⟨?_, htail⟩
        intro y hy
        rcases jsMergeF_head? f (a :: l) r y hy with hh | hh
        · simp at hh
          subst hh
          rcases sortLe_total a b with ht | ht
          · exact absurd ht hle
          · exact ht
        · exact h2'.1 y hh

/-- Chain preservation for the exactly-fuelled merge. -/
theorem jsMerge_chain' (l r : List Article)
    (h1 : List.Chain' SortLeRel l) (h2 : List.Chain' SortLeRel r) :
    List.Chain' SortLeRel (jsMerge l r) :=
  jsMergeF_chain' (l.length + r.length) l r le_rfl h1 h2

/-- A merge is a permutation of the concatenation of its inputs. -/
theorem jsMergeF_perm (f : Nat) :
    ∀ l r : List Article, l.length + r.length ≤ f →
      (jsMergeF f l r).Perm (l ++ r) := by
  induction f with
  | zero =>
    intro l r hf
    have hl : l = [] := by cases l <;> simp_all
    have hr : r = [] := by cases r <;> simp_all
    subst hl; subst hr
    simp [jsMergeF]
  | succ f ih =>
    intro l r hf
    match l, r with
    | [], r => simp [jsMergeF]
    | a :: l, [] => simp [jsMergeF]
    | a :: l, b :: r =>
      by_cases hle : sortLe a b
      · rw [jsMergeF, if_pos hle]
        exact List.Perm.cons a (ih l (b :: r) (by simp at hf ⊢; omega))
      · rw [jsMergeF, if_neg hle]
        have hp : (jsMergeF f (a :: l) r).Perm ((a :: l) ++ r) :=
          ih (a :: l) r (by simp at hf ⊢; omega)
        have hmid : ((a :: l) ++ b :: r).Perm (b :: ((a :: l) ++ r)) :=
          List.perm_middle
        exact (List.Perm.cons b hp).trans hmid.symm

/-- Permutation for the exactly-fuelled merge. -/
theorem jsMerge_perm (l r : List Article) : (jsMerge l r).Perm (l ++ r) :=
  jsMergeF_perm (l.length + r.length) l r le_rfl

/-! ## Helper lemmas: the sort -/

/-- With fuel at least the length, the adjacent pairs of the sort's
output all satisfy the take-left test. -/
theorem jsSortF_chain' (f : Nat) :
    ∀ l : List Article, l.length ≤ f → List.Chain' SortLeRel (jsSortF f l) := by
  induction f with
  | zero =>
    intro l hf
    have hl : l = [] := by cases l <;> simp_all
    subst hl
    simp [jsSortF]
  | succ f ih =>
    intro l hf
    match l with
    | [] => simp [jsSortF]
    | [a] => simp [jsSortF]
    | a :: b :: rest =>
      rw [jsSortF]
      apply jsMerge_chain'
      · apply ih
        simp at hf ⊢
        omega
      · apply ih
        simp at hf ⊢
        omega

/-- With fuel at least the length, the sort permutes its input. -/
theorem jsSortF_perm (f : Nat) :
    ∀ l : List Article, l.length ≤ f → (jsSortF f l).Perm l := by
  induction f with
  | zero =>
    intro l hf
    have hl : l = [] := by cases l <;> simp_all
    subst hl
    simp [jsSortF]
  | succ f ih =>
    intro l hf
    match l with
    | [] => simp [jsSortF]
    | [a] => simp [jsSortF]
    | a :: b :: rest =>
      rw [jsSortF]
      have h1 : (jsSortF f ((a :: b :: rest).take ((rest.length + 2) / 2))).Perm
          ((a :: b :: rest).take ((rest.length + 2) / 2)) := by
        apply ih
        simp at hf ⊢
        omega
      have h2 : (jsSortF f ((a :: b :: rest).drop ((rest.length + 2) / 2))).Perm
          ((a :: b :: rest).drop ((rest.length + 2) / 2)) := by
        apply ih
        simp at hf ⊢
        omega
      have hm := jsMerge_perm (jsSortF f ((a :: b :: rest).take ((rest.length + 2) / 2)))
        (jsSortF f ((a :: b :: rest).drop ((rest.length + 2) / 2)))
      refine hm.trans ?_
      refine (List.Perm.append h1 h2).trans ?_
      rw [List.take_append_drop]

/-- The sorted list of line 80 has all adjacent pairs accepted by the
take-left test, for every input, including inputs with `NaN`
timestamps. -/
theorem jsSort_chain' (l : List Article) : List.Chain' SortLeRel (jsSort l) :=
  jsSortF_chain' l.length l le_rfl

/-- The sorted list of line 80 is a permutation of its input. -/
theorem jsSort_perm (l : List Article) : (jsSort l).Perm l :=
  jsSortF_perm l.length l le_rfl

/-! ## Helper lemmas: the verification scan -/

/-- The scan of lines 97-104 accepts every list whose adjacent pairs
satisfy the take-left test. -/
theorem scanExc_ok : ∀ (l : List Article) (i : Nat),
    List.Chain' SortLeRel l → scanExc i l = Except.ok () := by
  intro l
  induction l with
  | nil => intro i _; rfl
  | cons a l ih =>
    intro i h
    match l with
    | [] => rfl
    | b :: rest =>
      have hab : SortLeRel a b := (List.chain'_cons.mp h).1
      rw [scanExc, jsGtB_eq_false_of_sortLe a b hab]
      simp only [Bool.false_eq_true, if_false]
      exact ih (i + 1) (List.chain'_cons.mp h).2

/-- The verification scan never throws on the output of the sort of
line 80: the `throw` at line 99 is unreachable, whatever the
accumulated articles (even with `NaN` timestamps). -/
theorem verifyScan_jsSort (l : List Article) :
    verifyScan (jsSort l) = Except.ok () :=
  scanExc_ok (jsSort l) 1 (jsSort_chain' l)

/-- The scan throws exactly the message of the first adjacent
inversion. -/
theorem scanExc_of_firstViolation : ∀ (l : List Article) (i j : Nat)
    (cur prev : Article), firstViolation i l = some (j, cur, prev) →
    scanExc i l = Except.error (violationMsg j cur prev) := by
  intro l
  induction l with
  | nil => intro i j cur prev h; simp [firstViolation] at h
  | cons a l ih =>
    intro i j cur prev h
    match l with
    | [] => simp [firstViolation] at h
    | b :: rest =>
      rw [firstViolation] at h
      rw [scanExc]
      by_cases hgt : jsGtB b.timestamp a.timestamp
      · rw [if_pos hgt] at h
        rw [if_pos hgt]
        simp only [Option.some.injEq, Prod.mk.injEq] at h
        obtain ⟨rfl, rfl, rfl⟩ := h
        rfl
      · rw [if_neg hgt] at h
        rw [if_neg hgt]
        exact ih (i + 1) j cur prev h

/-! ## Helper lemmas: finite timestamps and strict order -/

/-- On finite timestamps the take-left test is the numeric
comparison. -/
theorem tsLeNum_of_sortLeRel (p c : Article)
    (hp : p.timestamp ≠ JsNum.nan) (hc : c.timestamp ≠ JsNum.nan)
    (h : SortLeRel p c) : tsLeNum c p := by
  unfold SortLeRel sortLe sortCompareVal jsSub at h
  cases htp : p.timestamp with
  | nan => exact absurd htp hp
  | num y =>
    cases htc : c.timestamp with
    | nan => exact absurd htc hc
    | num x =>
      rw [htp, htc] at h
      simp at h
      exact ⟨x, y, htc, htp, by omega⟩

/-- Two adjacent-pair conditions combine pointwise. -/
theorem chain'_and_of {α : Type} {P Q : α → α → Prop} :
    ∀ l : List α, List.Chain' P l → List.Chain' Q l →
      List.Chain' (fun a b => P a b ∧ Q a b) l := by
  intro l
  induction l with
  | nil => intro _ _; simp
  | cons a l ih =>
    intro h1 h2
    rw [List.chain'_cons'] at h1 h2 ⊢
    exact ⟨fun y hy => ⟨h1.1 y hy, h2.1 y hy⟩, ih h1.2 h2.2⟩

/-- On a list of finite, adjacently-distinct timestamps, the take-left
test of adjacent pairs upgrades to the strict descending order. -/
theorem chain'_tsGt (l : List Article)
    (hfin : ∀ a ∈ l, a.timestamp ≠ JsNum.nan)
    (hchain : List.Chain' SortLeRel l)
    (hne : List.Chain' (fun a b : Article => a.timestamp ≠ b.timestamp) l) :
    List.Chain' tsGt l := by
  induction l with
  | nil => simp
  | cons a l ih =>
    rw [List.chain'_cons'] at hchain hne ⊢
    constructor
    · intro y hy
      have hyl : y ∈ l := List.mem_of_mem_head? hy
      have hfa : a.timestamp ≠ JsNum.nan := hfin a (by simp)
      have hfy : y.timestamp ≠ JsNum.nan := hfin y (by simp [hyl])
      have hle := hchain.1 y hy
      have hneq := hne.1 y hy
      cases hta : a.timestamp with
      | nan => exact absurd hta hfa
      | num x =>
        cases hty : y.timestamp with
        | nan => exact absurd hty hfy
        | num z =>
          refine ⟨x, z, hta, hty, ?_⟩
          unfold SortLeRel sortLe sortCompareVal jsSub at hle
          rw [hta, hty] at hle hneq
          simp at hle hneq
          omega
    · exact ih (fun b hb => hfin b (by simp [hb])) hchain.2 hne.2

/-- Any permutation of a tie-free finite sample whose adjacent pairs
pass the take-left test is strictly descending everywhere. -/
theorem pairwise_tsGt_of (sample l : List Article)
    (hfin : ∀ a ∈ sample, a.timestamp ≠ JsNum.nan)
    (hnodup : (sample.map Article.timestamp).Nodup)
    (hperm : l.Perm sample) (hchain : List.Chain' SortLeRel l) :
    List.Pairwise tsGt l := by
  have hfin' : ∀ a ∈ l, a.timestamp ≠ JsNum.nan :=
    fun a ha => hfin a (hperm.mem_iff.mp ha)
  have hnodup' : (l.map Article.timestamp).Nodup :=
    ((hperm.map Article.timestamp).nodup_iff).mpr hnodup
  have hne : List.Chain' (fun a b : Article => a.timestamp ≠ b.timestamp) l := by
    have hp : List.Pairwise (fun a b : JsNum => a ≠ b) (l.map Article.timestamp) :=
      hnodup'
    exact (List.chain'_map Article.timestamp).mp hp.chain'
  exact List.chain'_iff_pairwise.mp (chain'_tsGt l hfin' hchain hne)

/-! ## Helper lemmas: console output -/

/-- The `forEach` listing never produces a `logger.error` line. -/
theorem error_not_mem_listingLines : ∀ (l : List Article) (i : Nat) (m : String),
    OutLine.error m ∉ listingLines i l := by
  intro l
  induction l with
  | nil => intro i m h; simp [listingLines] at h
  | cons a l ih =>
    intro i m h
    rw [listingLines] at h
    rcases List.mem_cons.mp h with h | h
    · exact OutLine.noConfusion h
    · exact ih (i + 1) m h

/-- The report of lines 82-94 never contains a `logger.error` line. -/
theorem error_not_mem_reportLines (top100 : List Article) (m : String) :
    OutLine.error m ∉ reportLines top100 := by
  intro h
  unfold reportLines at h
  simp [List.mem_append] at h
  exact error_not_mem_listingLines top100 0 m h

/-! ## The claims -/

/-- Claim C1: for every 100-item sample with finite timestamps, after
the descending-timestamp sort of line 80 every adjacent pair of the
resulting sequence satisfies
`ordered[i].timestampMs <= ordered[i-1].timestampMs`, and the
verification scan of lines 97-104 reports no violation. -/
theorem c1_sort_correctness (sample : List Article) (hlen : sample.length = 100)
    (hfin : ∀ a ∈ sample, a.timestamp ≠ JsNum.nan) :
    (∀ (i : Nat) (h : i < (jsSort sample).length - 1),
        tsLeNum ((jsSort sample).get ⟨i + 1, by omega⟩)
          ((jsSort sample).get ⟨i, by omega⟩))
      ∧ verifyScan (jsSort sample) = Except.ok () := by
  refine ⟨?_, verifyScan_jsSort sample⟩
  intro i h
  have hrel := (List.chain'_iff_get.mp (jsSort_chain' sample)) i h
  have hmem1 : (jsSort sample).get ⟨i, by omega⟩ ∈ jsSort sample :=
    List.get_mem _ _ _
  have hmem2 : (jsSort sample).get ⟨i + 1, by omega⟩ ∈ jsSort sample :=
    List.get_mem _ _ _
  have hf1 : ((jsSort sample).get ⟨i, by omega⟩).timestamp ≠ JsNum.nan :=
    hfin _ ((jsSort_perm sample).mem_iff.mp hmem1)
  have hf2 : ((jsSort sample).get ⟨i + 1, by omega⟩).timestamp ≠ JsNum.nan :=
    hfin _ ((jsSort_perm sample).mem_iff.mp hmem2)
  exact tsLeNum_of_sortLeRel _ _ hf1 hf2 hrel

/-- Witness for C1 at a concrete 100-item sample. -/
theorem c1_sort_correctness_witness :
    c1Sample.length = 100 ∧ (∀ a ∈ c1Sample, a.timestamp ≠ JsNum.nan) ∧
      verifyScan (jsSort c1Sample) = Except.ok () :=
  ⟨by decide, by decide,
    (c1_sort_correctness c1Sample (by decide) (by decide)).2⟩

/-- Claim C2 is false of the code: on a 100-item sample whose first
item has a `NaN` timestamp, the verification scan reports nothing (all
`NaN` comparisons are `false`), no failure line is emitted, and no
"InvalidTimestamp" error kind exists anywhere in the program — the
sample is silently passed, contradicting "rejects that item as a
Violation with the distinct error kind InvalidTimestamp". -/
theorem c2_counterexample :
    c2Sample.length = 100 ∧ (∃ a ∈ c2Sample, a.timestamp = JsNum.nan) ∧
      verifyScan (jsSort c2Sample) = Except.ok () ∧
      (phaseOutput (jsSort c2Sample)).all (fun o => !isErrorLine o) = true :=
  ⟨by decide, ⟨{ title := "broken", timestamp := JsNum.nan }, by decide, rfl⟩,
    rfl, by decide⟩

/-- Claim C2 amended: the Validator performs no finite-timestamp
check.  A sample whose first `N` items include a `NaN` timestamp is
silently passed: the run does not crash, the verification scan reports
no violation, and the output is the ordinary success report with no
failure line.  (Non-finite timestamps are instead rejected earlier, at
extraction time, by the `isNaN` admission filter of line 54.) -/
theorem c2_nan_silently_passed (articles : List Article)
    (hnan : ∃ a ∈ articles.take 100, a.timestamp = JsNum.nan) :
    verifyScan (top100Of articles) = Except.ok () ∧
      phaseOutput (top100Of articles) =
        reportLines (top100Of articles) ++ finallyLines := by
  have hok : verifyScan (top100Of articles) = Except.ok () :=
    verifyScan_jsSort (articles.take 100)
  refine ⟨hok, ?_⟩
  unfold phaseOutput
  rw [hok]
  simp

/-- Witness for the amended C2 at a concrete `NaN`-containing
sample. -/
theorem c2_nan_silently_passed_witness :
    (∃ a ∈ c2Sample.take 100, a.timestamp = JsNum.nan) ∧
      verifyScan (top100Of c2Sample) = Except.ok () :=
  ⟨by decide, (c2_nan_silently_passed c2Sample (by decide)).1⟩

/-- Row-level admission condition of lines 47-60: a record is admitted
iff the title element exists, the age link is located, and the parsed
timestamp is finite; the admitted record is built from the trimmed
title text and the millisecond timestamp.  No non-emptiness condition
on the title text appears. -/
theorem extractRow_eq_some_iff (d : HNDoc) (r : HNRow) (it : Article) :
    extractRow d r = some it ↔
      ∃ t a ds, r.titleEl = some t ∧ ageLinkFor d r = some a ∧
        firstDigitRun a.href = some ds ∧
        it = { title := jsTrim t.textContent,
               timestamp := jsMul1000 (JsNum.num (natOfDigits ds)) } := by
  cases ht : r.titleEl with
  | none => simp [extractRow, ht]
  | some t =>
    cases ha : ageLinkFor d r with
    | none => simp [extractRow, ht, ha]
    | some a =>
      cases hds : firstDigitRun a.href with
      | none =>
        simp [extractRow, ht, ha, parseIntFirst, hds, jsMul1000, jsIsNaN]
      | some ds =>
        simp only [extractRow, ht, ha, parseIntFirst, hds, jsMul1000, jsIsNaN,
          Bool.false_eq_true, if_false, Option.some.injEq]
        constructor
        · intro h
          exact ⟨t, a, ds, rfl, rfl, hds, h.symm⟩
        · rintro ⟨t2, a2, ds2, ht2, ha2, hds2, hit⟩
          subst ht2
          subst ha2
          rw [hds] at hds2
          simp only [Option.some.injEq] at hds2
          subst hds2
          rw [hit]

/-- Claim C3 is false of the code: the extraction of lines 46-61 checks
only that the title *element* exists, never that its text is
non-empty.  On a row whose title element has empty text and whose age
link carries the UNIX timestamp 500, the empty-titled record is
admitted into the Collection rather than dropped. -/
theorem c3_counterexample :
    extractVisibleItems c3Doc =
      [{ title := "", timestamp := JsNum.num 500000 }] := rfl

/-- Claim C3 amended: an Item is appended to the Collection iff its row
has a title element, a locatable age link, and a finite parsed
timestamp.  The title string itself is not inspected: an empty-string
title with a finite timestamp is admitted, not dropped. -/
theorem c3_admission_amended (d : HNDoc) (it : Article) :
    it ∈ extractVisibleItems d ↔
      ∃ r ∈ d.rows, ∃ t a ds, r.titleEl = some t ∧ ageLinkFor d r = some a ∧
        firstDigitRun a.href = some ds ∧
        it = { title := jsTrim t.textContent,
               timestamp := jsMul1000 (JsNum.num (natOfDigits ds)) } := by
  unfold extractVisibleItems
  rw [List.mem_filterMap]
  constructor
  · rintro ⟨r, hr, hext⟩
    exact ⟨r, hr, (extractRow_eq_some_iff d r it).mp hext⟩
  · rintro ⟨r, hr, hcond⟩
    exact ⟨r, hr, (extractRow_eq_some_iff d r it).mpr hcond⟩

/-- Claim C4: the output of the run (lines 82-112, applied to the
sorted `top100` of line 80) is exclusive — it is always the 1-indexed
listing followed by the success marker (and cleanup), and never
contains a failure line: the `throw` of line 99 is unreachable on a
list the code itself just sorted, so a run cannot emit both a success
report and a failure line. -/
theorem c4_output_exclusive (articles : List Article) :
    phaseOutput (top100Of articles) =
        reportLines (top100Of articles) ++ finallyLines ∧
      ∀ m, OutLine.error m ∉ phaseOutput (top100Of articles) := by
  have hok : verifyScan (top100Of articles) = Except.ok () :=
    verifyScan_jsSort (articles.take 100)
  have heq : phaseOutput (top100Of articles) =
      reportLines (top100Of articles) ++ finallyLines := by
    unfold phaseOutput
    rw [hok]
    simp
  refine ⟨heq, ?_⟩
  intro m hm
  rw [heq] at hm
  rcases List.mem_append.mp hm with h | h
  · exact error_not_mem_reportLines (top100Of articles) m h
  · simp [finallyLines] at h

/-- Claim C5 is false of the code: when the strict-descending check
fails at some position, the finding is surfaced by *throwing* an
`Error` (line 99) — modelled as `Except.error` — not by returning a
`ValidationResult.Violation` value; no such result type exists in the
program. -/
theorem c5_counterexample :
    verifyScan c5Pair = Except.error (violationMsg 1 c5Newer c5Older) := rfl

/-- Claim C5 amended: an ordering violation detected by the scan of
lines 97-104 is thrown as an `Error` naming the position and the two
titles; the enclosing `try`/`catch` (lines 106-107) logs it as a
failure line and the `finally` block (lines 108-112) still runs, so the
run completes normally and reports the finding — but through exception
control flow, not a returned result value. -/
theorem c5_violation_thrown_and_caught (t : List Article) (i : Nat)
    (cur prev : Article) (h : firstViolation 1 t = some (i, cur, prev)) :
    verifyScan t = Except.error (violationMsg i cur prev) ∧
      phaseOutput t = reportLines t ++
        [OutLine.error ("Validation failed: " ++ violationMsg i cur prev)] ++
        finallyLines := by
  have hscan : verifyScan t = Except.error (violationMsg i cur prev) :=
    scanExc_of_firstViolation t 1 i cur prev h
  refine ⟨hscan, ?_⟩
  unfold phaseOutput
  rw [hscan]

/-- Witness for the amended C5 at the concrete inverted pair. -/
theorem c5_violation_thrown_and_caught_witness :
    firstViolation 1 c5Pair = some (1, c5Newer, c5Older) ∧
      verifyScan c5Pair = Except.error (violationMsg 1 c5Newer c5Older) :=
  ⟨rfl, (c5_violation_thrown_and_caught c5Pair 1 c5Newer c5Older rfl).1⟩

/-- Claim C6: the accumulation loop of lines 38-77 never invokes
`loadMore()` (the `page.click(".morelink")` of line 73) at a point
where the collection already holds at least `target` articles: every
length recorded at a click is below the target. -/
theorem c6_loadmore_guarded (target : Nat) (batches : List (List Article)) :
    ∀ (acc : List Article) (n : Nat),
      n ∈ (accumulateArticles target batches acc).2 → n < target := by
  induction batches with
  | nil =>
    intro acc n hn
    rw [accumulateArticles] at hn
    by_cases hlt : acc.length < target
    · rw [if_pos hlt] at hn
      simp at hn
    · rw [if_neg hlt] at hn
      simp at hn
  | cons b rest ih =>
    intro acc n hn
    rw [accumulateArticles] at hn
    by_cases hlt : acc.length < target
    · rw [if_pos hlt] at hn
      by_cases hlt2 : (acc ++ b).length < target
      · rw [if_pos hlt2] at hn
        rcases List.mem_cons.mp hn with h | h
        · rw [h]; exact hlt2
        · exact ih (acc ++ b) n h
      · rw [if_neg hlt2] at hn
        simp at hn
    · rw [if_neg hlt] at hn
      simp at hn

/-- Witness for C6 at the Scenario C input. -/
theorem c6_loadmore_guarded_witness :
    2 ∈ (accumulateArticles 5 c7Batches []).2 ∧ 2 < 5 :=
  ⟨by decide, c6_loadmore_guarded 5 c7Batches [] 2 (by decide)⟩

/-- Claim C7 (Scenario C): with `target = 5` and successive extraction
results of sizes 2, 2, 2, the loop performs exactly two `loadMore()`
clicks (at collection lengths 2 and 4) and terminates with a final
collection of length 6. -/
theorem c7_scenario_c :
    ((accumulateArticles 5 c7Batches []).1).map List.length = some 6 ∧
      (accumulateArticles 5 c7Batches []).2 = [2, 4] ∧
      ((accumulateArticles 5 c7Batches []).2).length = 2 :=
  ⟨rfl, rfl, rfl⟩

/-- Claim C8: the Validator's behaviour is a function of the first
N = 100 items only — the `slice(0, 100)` of line 80 means two
collections agreeing on their first 100 items yield the same sorted
sample and the same console output, whatever lies at index 100 and
beyond.  (The sort itself operates on the slice copy, never on the
accumulated list, which the model keeps immutable.) -/
theorem c8_first_hundred_only (l1 l2 : List Article)
    (h : l1.take 100 = l2.take 100) :
    top100Of l1 = top100Of l2 ∧
      phaseOutput (top100Of l1) = phaseOutput (top100Of l2) := by
  unfold top100Of
  rw [h]
  exact ⟨rfl, rfl⟩

/-- Witness for C8: two 101-item collections differing only at index
100. -/
theorem c8_first_hundred_only_witness :
    c8Coll1.take 100 = c8Coll2.take 100 ∧ c8Coll1 ≠ c8Coll2 ∧
      top100Of c8Coll1 = top100Of c8Coll2 :=
  ⟨by decide, by decide,
    (c8_first_hundred_only c8Coll1 c8Coll2 (by decide)).1⟩

/-- Claim C9: on a tie-free sample of finite timestamps the Validator
is deterministic — any list that is a permutation of the sample and
passes the adjacent descending condition is *equal* to the `ordered`
sequence the sort of line 80 produces, so re-running the Validator (or
any conforming sort) on the same sample yields the identical `ordered`
sequence and the identical scan result. -/
theorem c9_determinism_modulo_ties (sample l : List Article)
    (hfin : ∀ a ∈ sample, a.timestamp ≠ JsNum.nan)
    (hnodup : (sample.map Article.timestamp).Nodup)
    (hperm : l.Perm sample) (hchain : List.Chain' SortLeRel l) :
    l = jsSort sample ∧ verifyScan l = verifyScan (jsSort sample) := by
  have hp1 : List.Pairwise tsGt l :=
    pairwise_tsGt_of sample l hfin hnodup hperm hchain
  have hp2 : List.Pairwise tsGt (jsSort sample) :=
    pairwise_tsGt_of sample (jsSort sample) hfin hnodup
      (jsSort_perm sample) (jsSort_chain' sample)
  have heq : l = jsSort sample :=
    List.eq_of_perm_of_sorted (hperm.trans (jsSort_perm sample).symm) hp1 hp2
  exact ⟨heq, by rw [heq]⟩

/-- Witness for C9 at a concrete tie-free three-item sample. -/
theorem c9_determinism_modulo_ties_witness :
    c9Ordered.Perm c9Sample ∧ c9Ordered = jsSort c9Sample :=
  ⟨by decide,
    (c9_determinism_modulo_ties c9Sample c9Ordered (by decide) (by decide)
      (by decide)
      (by
        unfold c9Ordered
        refine List.chain'_cons.mpr ⟨by decide, List.chain'_cons.mpr ⟨by decide, ?_⟩⟩
        simp)).1⟩

/-- Claim C10: the row `id` attribute is used only to locate the row's
age element (the `#score_<id>` lookup of lines 49-50) and is never
stored on the admitted record: two documents whose rows carry the same
title elements and resolve to the same age links produce identical
Collections, no matter what their ids are; an `Article` consists of
the two fields `title` and `timestamp` only, so nothing downstream can
observe an id. -/
theorem c10_id_never_stored (d1 d2 : HNDoc)
    (h : d1.rows.map (fun r => (r.titleEl, ageLinkFor d1 r)) =
         d2.rows.map (fun r => (r.titleEl, ageLinkFor d2 r))) :
    extractVisibleItems d1 = extractVisibleItems d2 := by
  have key : ∀ (d : HNDoc) (r : HNRow),
      extractRow d r = extractPair (r.titleEl, ageLinkFor d r) := by
    intro d r
    unfold extractRow extractPair
    cases r.titleEl <;> cases ageLinkFor d r <;> rfl
  have congrAux : ∀ (rs1 rs2 : List HNRow)
      (g1 g2 : HNRow → Option TitleEl × Option AgeEl),
      rs1.map g1 = rs2.map g2 →
      rs1.filterMap (fun r => extractPair (g1 r)) =
        rs2.filterMap (fun r => extractPair (g2 r)) := by
    intro rs1
    induction rs1 with
    | nil =>
      intro rs2 g1 g2 hmap
      cases rs2 with
      | nil => rfl
      | cons b t => simp at hmap
    | cons a t ih =>
      intro rs2 g1 g2 hmap
      cases rs2 with
      | nil => simp at hmap
      | cons b t2 =>
        simp only [List.map_cons, List.cons.injEq] at hmap
        simp only [List.filterMap_cons, hmap.1, ih t2 g1 g2 hmap.2]
  unfold extractVisibleItems
  have h1 : d1.rows.filterMap (extractRow d1) =
      d1.rows.filterMap (fun r => extractPair (r.titleEl, ageLinkFor d1 r)) := by
    apply List.filterMap_congr
    intro r _
    exact key d1 r
  have h2 : d2.rows.filterMap (extractRow d2) =
      d2.rows.filterMap (fun r => extractPair (r.titleEl, ageLinkFor d2 r)) := by
    apply List.filterMap_congr
    intro r _
    exact key d2 r
  rw [h1, h2]
  exact congrAux d1.rows d2.rows _ _ h

/-- Witness for C10: two one-row documents with different row ids but
identical located elements. -/
theorem c10_id_never_stored_witness :
    c10Doc1.rows.map (fun r => (r.titleEl, ageLinkFor c10Doc1 r)) =
        c10Doc2.rows.map (fun r => (r.titleEl, ageLinkFor c10Doc2 r)) ∧
      extractVisibleItems c10Doc1 = extractVisibleItems c10Doc2 :=
  ⟨rfl, c10_id_never_stored c10Doc1 c10Doc2 rfl⟩
